import Mathlib

/-!
Verification of the Gantt-Chart repository's core logic: hierarchy
building (`src/hooks/useTasks.ts`), timeline geometry and drag-to-date
translation (`src/components/GanttChart/TaskBar.tsx`), month header
grouping (`TimelineHeader`), and the mutation operations of the
`useTasks` hook.

Dates are modelled as integer day numbers (days since the civil epoch
1970-01-01, the same day arithmetic `date-fns` performs on midnight
dates); `daysFromCivil`/`civilFromDays` convert between day numbers and
calendar (year, month, day) triples using the standard civil-calendar
algorithm, so concrete dates such as 2024-01-10 can be evaluated.
-/

namespace Gantt

/-- Day number of the civil date y-m-d (days since 1970-01-01), the
standard days-from-civil conversion. `m` is 1..12, `d` is 1..31. -/
def daysFromCivil (y : Int) (m d : Nat) : Int :=
  let y' : Int := if m ≤ 2 then y - 1 else y
  let era : Int := Int.fdiv y' 400
  let yoe : Int := y' - era * 400
  let mp : Int := if m ≥ 3 then (m : Int) - 3 else (m : Int) + 9
  let doy : Int := Int.fdiv (153 * mp + 2) 5 + (d : Int) - 1
  let doe : Int := yoe * 365 + Int.fdiv yoe 4 - Int.fdiv yoe 100 + doy
  era * 146097 + doe - 719468

/-- Calendar (year, month, day) of a day number, the standard
civil-from-days conversion. -/
def civilFromDays (z : Int) : Int × Nat × Nat :=
  let z' : Int := z + 719468
  let era : Int := Int.fdiv z' 146097
  let doe : Int := z' - era * 146097
  let yoe : Int := Int.fdiv (doe - Int.fdiv doe 1460 + Int.fdiv doe 36524 - Int.fdiv doe 146096) 365
  let y : Int := yoe + era * 400
  let doy : Int := doe - (365 * yoe + Int.fdiv yoe 4 - Int.fdiv yoe 100)
  let mp : Int := Int.fdiv (5 * doy + 2) 153
  let d : Int := doy - Int.fdiv (153 * mp + 2) 5 + 1
  let m : Int := if mp < 10 then mp + 3 else mp - 9
  (if m ≤ 2 then y + 1 else y, m.toNat, d.toNat)

/-- Month (1..12) of a day number, as `date-fns` `getMonth` (shifted to
1-based). -/
def monthOf (z : Int) : Nat := (civilFromDays z).2.1

/-- Year of a day number, as `date-fns` `getYear`. -/
def yearOf (z : Int) : Int := (civilFromDays z).1

/-- JavaScript `Math.round (num / den)` for integers `num` and positive
`den`: rounding to nearest, halves toward positive infinity, i.e.
`⌊num/den + 1/2⌋`. -/
def jsRound (num den : Int) : Int := Int.fdiv (2 * num + den) (2 * den)

/-! ## Timeline geometry (`TaskBar.tsx` lines 28–31)

`taskOffset = differenceInDays(taskStart, startDate)` and
`taskDuration = differenceInDays(taskEnd, taskStart) + 1`; the bar's
geometry is `left = taskOffset * dayWidth`, `width = taskDuration *
dayWidth`. -/

/-- Pixel offset of date `d` in a window starting at `ws`:
`differenceInDays(d, ws) * dayWidth`. -/
def offsetPx (ws d w : Int) : Int := (d - ws) * w

/-- Pixel width of the inclusive span `s..e`:
`(differenceInDays(e, s) + 1) * dayWidth`. -/
def widthPx (s e w : Int) : Int := (e - s + 1) * w

/-! ## Drag-to-date translation (`TaskBar.tsx` `handleMouseMove`)

Each handler receives the window start `ws`, the task's start `s` and
end `e` (inclusive day numbers), the day width `w` and the pointer
delta `δ` in pixels, and either emits an updated `(start, end)` pair or
emits nothing.  `startLeft = taskOffset * dayWidth` and `startWidth =
taskDuration * dayWidth` are the drag-start reference values. -/

/-- The `type === 'move'` branch: `newOffset = Math.round((startLeft +
deltaX) / dayWidth)`, new start `= addDays(startDate, newOffset)`, new
end `= addDays(newStartDate, taskDuration - 1)`; the update is emitted
only when `newOffset >= 0`. -/
def moveUpdate (ws s e w δ : Int) : Option (Int × Int) :=
  let taskDuration := e - s + 1
  let taskOffset := s - ws
  let startLeft := taskOffset * w
  let newOffset := jsRound (startLeft + δ) w
  let newStartDate := ws + newOffset
  let newEndDate := newStartDate + (taskDuration - 1)
  if 0 ≤ newOffset then some (newStartDate, newEndDate) else none

/-- The `type === 'left'` branch: same `newOffset`; the update sets only
the start date (end unchanged) and is emitted only when `newOffset >= 0`
and `newOffset < taskOffset + taskDuration`. -/
def resizeLeftUpdate (ws s e w δ : Int) : Option (Int × Int) :=
  let taskDuration := e - s + 1
  let taskOffset := s - ws
  let startLeft := taskOffset * w
  let newOffset := jsRound (startLeft + δ) w
  let newStartDate := ws + newOffset
  if 0 ≤ newOffset ∧ newOffset < taskOffset + taskDuration then
    some (newStartDate, e)
  else none

/-- The `type === 'right'` branch: `newDuration = Math.round((startWidth
+ deltaX) / dayWidth)`, new end `= addDays(taskStart, newDuration - 1)`
(start unchanged); emitted only when `newDuration > 0`.  The window
start `_ws` plays no role in this branch. -/
def resizeRightUpdate (_ws s e w δ : Int) : Option (Int × Int) :=
  let taskDuration := e - s + 1
  let startWidth := taskDuration * w
  let newDuration := jsRound (startWidth + δ) w
  let newEndDate := s + (newDuration - 1)
  if 0 < newDuration then some (s, newEndDate) else none

/-! ## Hierarchy builder (`useTasks.ts` `fetchTasks`, lines 38–67)

A fetched task row carries an identifier, an optional parent identifier
and an ordering index (the fetch sorts ascending on `order_index`); the
remaining columns play no role in the tree shape.  The builder's two
passes over a JavaScript `Map` are embedded with the map as an
association list from task id to the accumulated `subtasks` id list;
because the `Map` holds object references, a node's final `subtasks`
are read off the final map, and `rootTasks` is the list of root ids
resolved through that same map. -/

/-- A task row as fetched from the `tasks` table, restricted to the
fields the hierarchy builder inspects. -/
structure TaskRow where
  id : String
  parent_id : Option String
  order_index : Int
deriving DecidableEq

/-- JavaScript `Map.set`: overwrite the existing entry for the key, or
append a new entry (insertion order preserved). -/
def mapSet (m : List (String × List String)) (k : String) (v : List String) :
    List (String × List String) :=
  if m.any (fun e => e.1 = k) then
    m.map (fun e => if e.1 = k then (k, v) else e)
  else m ++ [(k, v)]

/-- First pass (`tasksData?.forEach` at lines 42–53): enter every task
into `tasksMap` with an empty `subtasks` list. -/
def firstPass (tasks : List TaskRow) : List (String × List String) :=
  tasks.foldl (fun m t => mapSet m t.id []) []

/-- The `parent.subtasks.push(taskWithSubtasks)` step: append child id `c` to
the entry of parent `p`. -/
def pushChild (m : List (String × List String)) (p c : String) :
    List (String × List String) :=
  m.map (fun e => if e.1 = p then (e.1, e.2 ++ [c]) else e)

/-- One step of the second pass (`tasksData?.forEach` at lines 56–67)
on the state (tasksMap, rootTasks): if the task's `parent_id` is
non-null and present in the map, push its id onto the parent's
`subtasks`; if its `parent_id` is null, push it onto `rootTasks`;
otherwise drop it. -/
def hStep (st : List (String × List String) × List String) (t : TaskRow) :
    List (String × List String) × List String :=
  match t.parent_id with
  | some p => if st.1.any (fun e => e.1 = p) then (pushChild st.1 p t.id, st.2) else st
  | none => (st.1, st.2 ++ [t.id])

/-- Second pass: fold `hStep` over the tasks in input order, starting
from the first pass's map and an empty root list. -/
def secondPass (tasks : List TaskRow) (m0 : List (String × List String)) :
    List (String × List String) × List String :=
  tasks.foldl hStep (m0, [])

/-- The whole hierarchy build: the final map (id ↦ subtasks ids) and
the root id list. -/
def buildHierarchy (tasks : List TaskRow) :
    List (String × List String) × List String :=
  secondPass tasks (firstPass tasks)

/-- How many times id `i` occurs in the built forest: occurrences in
the root list plus occurrences in every node's `subtasks` list. -/
def occurrences (st : List (String × List String) × List String) (i : String) : Nat :=
  st.2.count i + (st.1.map (fun e => e.2.count i)).sum

/-- The `order_index` of the task with id `i` (the first match, 0 if
absent); used to state sibling ordering. -/
def indexOf (tasks : List TaskRow) (i : String) : Int :=
  match tasks.find? (fun t => t.id = i) with
  | some t => t.order_index
  | none => 0

/-- Iterate the parent reference `n` times starting from id `i`
(resolving ids through the task list); `none` once the chain leaves the
task set or hits a null parent. -/
def ancestorIter (tasks : List TaskRow) : Nat → String → Option String
  | 0, i => some i
  | n + 1, i =>
    match tasks.find? (fun t => t.id = i) with
    | some t =>
      match t.parent_id with
      | some p => ancestorIter tasks n p
      | none => none
    | none => none

/-- The parent references form no cycle: from every task, the parent
chain dies out within `tasks.length` steps. -/
def acyclicParents (tasks : List TaskRow) : Prop :=
  ∀ t ∈ tasks, ancestorIter tasks tasks.length t.id = none

instance (tasks : List TaskRow) : Decidable (acyclicParents tasks) := by
  unfold acyclicParents; infer_instance

/-! ## Month header grouping (`TimelineHeader`, lines 313–345)

The component scans day indices `0 ≤ i < totalDays`, keeps the current
group's (month, year) pair, day count and start index, flushes a group
(labelled `format(addDays(startDate, i-1), 'MMM yyyy')`, i.e. by the
run's last day) whenever the pair changes, and after the loop always
flushes the final group labelled `format(endDate, 'MMM yyyy')`. -/

/-- Three-letter English month abbreviation, as `date-fns` format
`'MMM'` in the default locale. -/
def monthAbbr : Nat → String
  | 1 => "Jan"
  | 2 => "Feb"
  | 3 => "Mar"
  | 4 => "Apr"
  | 5 => "May"
  | 6 => "Jun"
  | 7 => "Jul"
  | 8 => "Aug"
  | 9 => "Sep"
  | 10 => "Oct"
  | 11 => "Nov"
  | 12 => "Dec"
  | _ => ""

/-- Rendering `format(date, 'MMM yyyy')`. -/
def fmtMonth (z : Int) : String :=
  monthAbbr (monthOf z) ++ " " ++ toString (yearOf z)

/-- The (month, year) pair of day index `i` of a window starting at
`startDate`. -/
def windowKey (startDate : Int) (i : Nat) : Nat × Int :=
  (monthOf (startDate + (i : Int)), yearOf (startDate + (i : Int)))

/-- The `'MMM yyyy'` label of day index `i` of the window. -/
def windowLab (startDate : Int) (i : Nat) : String :=
  fmtMonth (startDate + (i : Int))

/-- The header `for` loop, one recursive step per day index: state is
(currentMonth/currentYear as `ck`, monthDays `md`, monthStartDay `ms`),
`i` is the next day index and `rem` the remaining iterations; returns
the flushed groups in order together with the final (monthDays,
monthStartDay) state.  (The flush label reads day `i - 1`; on the very
first iteration no flush can happen because the state is initialized
with day 0's pair.) -/
def ganttLoop (key : Nat → Nat × Int) (lab : Nat → String) :
    Nat → Nat → Nat × Int → Nat → Nat →
    List (String × Nat × Nat) × (Nat × Nat)
  | 0, _, _, md, ms => ([], (md, ms))
  | rem + 1, i, ck, md, ms =>
    if key i = ck then
      ganttLoop key lab rem (i + 1) ck (md + 1) ms
    else
      let rest := ganttLoop key lab rem (i + 1) (key i) 1 i
      ((lab (i - 1), md, ms) :: rest.1, rest.2)

/-- The `months` array of `TimelineHeader`: run the loop over all
`totalDays` day indices from the initial state (day 0's (month, year),
0 days, start 0), then always flush the last group, labelled from
`endDate`. -/
def timelineMonths (startDate endDate : Int) (totalDays : Nat) :
    List (String × Nat × Nat) :=
  let r := ganttLoop (windowKey startDate) (windowLab startDate) totalDays 0
    (windowKey startDate 0) 0 0
  r.1 ++ [(fmtMonth endDate, r.2.1, r.2.2)]

/-- Length of the maximal run of consecutive day indices starting at
`i` that share `key i`, looking at most `fuel` steps ahead. -/
def runLenF (key : Nat → Nat × Int) : Nat → Nat → Nat
  | 0, _ => 1
  | f + 1, i => if key (i + 1) = key i then runLenF key f (i + 1) + 1 else 1

/-- Modelled from the spec's words ("one group per maximal run of
consecutive days sharing the same (month, year) pair"): the list of
(key, dayCount, startDayIndex) of the successive maximal runs of the
day indices `i ≤ j < i + rem`. -/
def runsIdx (key : Nat → Nat × Int) : Nat → Nat → List ((Nat × Int) × Nat × Nat)
  | 0, _ => []
  | rem + 1, i =>
    (key i, runLenF key rem i, i) ::
      runsIdx key (rem + 1 - runLenF key rem i) (i + runLenF key rem i)
  termination_by rem _ => rem
  decreasing_by
    have h1 : ∀ f j : Nat, 1 ≤ runLenF key f j := by
      intro f j
      cases f with
      | zero => simp [runLenF]
      | succ g =>
        simp only [runLenF]
        split <;> omega
    exact Nat.sub_lt (Nat.succ_pos _) (h1 _ _)

/-- The `'MMM yyyy'` label of a (month, year) pair. -/
def labelKey (k : Nat × Int) : String :=
  monthAbbr k.1 ++ " " ++ toString k.2

/-- Spec-side month header groups: one (label, dayCount,
startDayIndex) triple per maximal run of consecutive days of the
window sharing the same (month, year) pair. -/
def monthHeaderSpec (startDate : Int) (totalDays : Nat) :
    List (String × Nat × Nat) :=
  (runsIdx (windowKey startDate) totalDays 0).map
    (fun g => (labelKey g.1, g.2.1, g.2.2))

/-! ## Mutation operations of `useTasks` (lines 82–236)

Each operation calls the storage layer (modelled by a `DbResult`
response per query, since the service is an external collaborator),
and on success re-fetches and rebuilds the forest (`fetchTasks`), while
on error the `catch` block leaves the in-memory forest untouched,
shows a destructive "Error" toast and returns `null`/`false`.  The
in-memory state is the built forest; toasts are collected in emission
order. -/

/-- A storage-layer response: a result set or an error object. -/
inductive DbResult (α : Type) where
  | ok : α → DbResult α
  | err : String → DbResult α
deriving DecidableEq

/-- A `toast(...)` call: title, description and whether the
`destructive` variant was used. -/
structure Toast where
  title : String
  description : String
  destructive : Bool
deriving DecidableEq

/-- A `toast({title: "Success", description: msg})` call. -/
def successToast (msg : String) : Toast := ⟨"Success", msg, false⟩

/-- A `toast({title: "Error", description: msg, variant: "destructive"})` call. -/
def errorToast (msg : String) : Toast := ⟨"Error", msg, true⟩

/-- The hook's in-memory `tasks` state: the built forest. -/
def HookState : Type := (List (String × List String)) × List String

/-- The `fetchTasks` function (lines 10–80): two queries (tasks, dependencies); on
success of both, the rebuilt forest replaces the state; on either
error the `catch` leaves the state untouched and toasts "Failed to
load tasks". -/
def fetchTasksOp (st : HookState) (rTasks : DbResult (List TaskRow))
    (rDeps : DbResult Unit) : HookState × List Toast :=
  match rTasks with
  | .err _ => (st, [errorToast "Failed to load tasks"])
  | .ok l =>
    match rDeps with
    | .err _ => (st, [errorToast "Failed to load tasks"])
    | .ok _ => (buildHierarchy l, [])

/-- The `createTask` function (lines 82–109): on insert error, state untouched,
error toast, returns `null`; on success, refresh then success toast,
returns the created row. -/
def createTask (st : HookState) (rIns : DbResult TaskRow)
    (rTasks : DbResult (List TaskRow)) (rDeps : DbResult Unit) :
    HookState × Option TaskRow × List Toast :=
  match rIns with
  | .err _ => (st, none, [errorToast "Failed to create task"])
  | .ok d =>
    let f := fetchTasksOp st rTasks rDeps
    (f.1, some d, f.2 ++ [successToast "Task created successfully"])

/-- The `updateTask` function (lines 111–139): same shape as `createTask`. -/
def updateTask (st : HookState) (rUpd : DbResult TaskRow)
    (rTasks : DbResult (List TaskRow)) (rDeps : DbResult Unit) :
    HookState × Option TaskRow × List Toast :=
  match rUpd with
  | .err _ => (st, none, [errorToast "Failed to update task"])
  | .ok d =>
    let f := fetchTasksOp st rTasks rDeps
    (f.1, some d, f.2 ++ [successToast "Task updated successfully"])

/-- The `deleteTask` function (lines 141–176): delete the direct children rows, then
the task row, then refresh; an error in either delete leaves the state
untouched, toasts the error and returns `false`. -/
def deleteTask (st : HookState) (rDelChildren rDelSelf : DbResult Unit)
    (rTasks : DbResult (List TaskRow)) (rDeps : DbResult Unit) :
    HookState × Bool × List Toast :=
  match rDelChildren with
  | .err _ => (st, false, [errorToast "Failed to delete task"])
  | .ok _ =>
    match rDelSelf with
    | .err _ => (st, false, [errorToast "Failed to delete task"])
    | .ok _ =>
      let f := fetchTasksOp st rTasks rDeps
      (f.1, true, f.2 ++ [successToast "Task deleted successfully"])

/-- The `addDependency` function (lines 178–207). -/
def addDependency (st : HookState) (rIns : DbResult Unit)
    (rTasks : DbResult (List TaskRow)) (rDeps : DbResult Unit) :
    HookState × Bool × List Toast :=
  match rIns with
  | .err _ => (st, false, [errorToast "Failed to add dependency"])
  | .ok _ =>
    let f := fetchTasksOp st rTasks rDeps
    (f.1, true, f.2 ++ [successToast "Dependency added successfully"])

/-- The `removeDependency` function (lines 209–236). -/
def removeDependency (st : HookState) (rDel : DbResult Unit)
    (rTasks : DbResult (List TaskRow)) (rDeps : DbResult Unit) :
    HookState × Bool × List Toast :=
  match rDel with
  | .err _ => (st, false, [errorToast "Failed to remove dependency"])
  | .ok _ =>
    let f := fetchTasksOp st rTasks rDeps
    (f.1, true, f.2 ++ [successToast "Dependency removed successfully"])

/-! ## Storage effect of `deleteTask` on the `tasks` table

The schema (migration line 28) declares `parent_id UUID REFERENCES
public.tasks(id) ON DELETE CASCADE`: whenever a row is deleted, the
storage layer also deletes every row whose `parent_id` references a
deleted row, recursively.  A `DELETE ... WHERE` therefore removes the
matched rows together with the transitive closure of this child-of
relation, modelled as an iterated one-step closure (`table.length`
rounds reach the fixpoint, since each productive round schedules at
least one further row). -/

/-- One round of the `ON DELETE CASCADE` propagation: every row not yet
scheduled whose parent id is scheduled becomes scheduled. -/
def cascadeOnce (table : List TaskRow) (dead : List String) : List String :=
  dead ++ (table.filter (fun r =>
    !(dead.contains r.id) &&
      match r.parent_id with
      | some p => dead.contains p
      | none => false)).map (fun r => r.id)

/-- Iterate the cascade propagation `n` rounds. -/
def cascadeIter (table : List TaskRow) : Nat → List String → List String
  | 0, dead => dead
  | n + 1, dead => cascadeIter table n (cascadeOnce table dead)

/-- All row ids deleted when the rows with ids `dead` are deleted: the
cascade closure, reached after `table.length` rounds. -/
def cascadeClosure (table : List TaskRow) (dead : List String) : List String :=
  cascadeIter table table.length dead

/-- A storage-layer `DELETE ... WHERE hit` on the `tasks` table: the
matched rows and, through the cascading foreign key, every transitive
descendant of a deleted row are removed. -/
def dbDeleteCascade (table : List TaskRow) (hit : TaskRow → Bool) : List TaskRow :=
  let dead := cascadeClosure table ((table.filter hit).map (fun r => r.id))
  table.filter (fun r => !(dead.contains r.id))

/-- The storage effect of `deleteTask(id)` on the `tasks` table rows:
first `delete().eq('parent_id', id)` (the direct children, cascading to
their descendants), then `delete().eq('id', id)` (the task itself,
likewise cascading). -/
def deleteTaskRows (table : List TaskRow) (i : String) : List TaskRow :=
  let afterChildren := dbDeleteCascade table (fun r => r.parent_id = some i)
  dbDeleteCascade afterChildren (fun r => r.id = i)

/-- The id `j` lies in the subtree rooted at `root`: following parent
references from `j` (resolved in `table`) reaches `root` within
`table.length` steps; `j = root` is the zero-step case. -/
def inSubtree (table : List TaskRow) (root j : String) : Prop :=
  ∃ k, k ≤ table.length ∧ ancestorIter table k j = some root

instance (table : List TaskRow) (root j : String) :
    Decidable (inSubtree table root j) := by
  unfold inSubtree
  infer_instance

end Gantt

namespace Gantt

/-- C2: a move-drag emits new start `= windowStart + round((originalOffsetPx
+ deltaPx) / dayWidthPx)` and new end `= new start + duration − 1`
(duration preserved); nothing is emitted when the rounded offset is
negative; and the concrete instance: task 2024-01-10..2024-01-12,
dayWidth 40, windowStart 2024-01-01, delta +80px yields
2024-01-12..2024-01-14. -/
theorem move_drag_spec :
    (∀ ws s e w δ ns ne : Int, moveUpdate ws s e w δ = some (ns, ne) →
      ns = ws + jsRound ((s - ws) * w + δ) w ∧ ne = ns + (e - s + 1) - 1) ∧
    (∀ ws s e w δ : Int, jsRound ((s - ws) * w + δ) w < 0 →
      moveUpdate ws s e w δ = none) ∧
    moveUpdate (daysFromCivil 2024 1 1) (daysFromCivil 2024 1 10)
        (daysFromCivil 2024 1 12) 40 80
      = some (daysFromCivil 2024 1 12, daysFromCivil 2024 1 14) := by
  refine ⟨?_, ?_, by decide⟩
  · intro ws s e w δ ns ne h
    by_cases h0 : 0 ≤ jsRound ((s - ws) * w + δ) w
    · simp only [moveUpdate, if_pos h0, Option.some.injEq, Prod.mk.injEq] at h
      omega
    · simp only [moveUpdate, if_neg h0] at h
      exact Option.noConfusion h
  · intro ws s e w δ h0
    simp only [moveUpdate, if_neg (by omega : ¬ 0 ≤ jsRound ((s - ws) * w + δ) w)]

/-- Witness for `move_drag_spec`: its two conditional parts applied at
concrete inputs (window start 0, task days 9..11, day width 40). -/
theorem move_drag_spec_witness :
    ((11 : Int) = 0 + jsRound ((9 - 0) * 40 + 80) 40 ∧
      (13 : Int) = 11 + ((11 : Int) - 9 + 1) - 1) ∧
    moveUpdate 0 9 11 40 (-10000) = none :=
  ⟨move_drag_spec.1 0 9 11 40 80 11 13 (by decide),
   move_drag_spec.2.1 0 9 11 40 (-10000) (by decide)⟩

/-- C3 counterexample: with windowStart 0 and a task spanning days
9..11, a left-resize delta of +80px gives `newOffsetDays = 11`, which
equals the task's current end offset (11 − 0); the claim says such a
drag is rejected, yet the code emits the update collapsing the task to
the single day 11. -/
theorem resize_left_reach_end_counterexample :
    jsRound ((9 - 0) * 40 + 80) 40 = 11 ∧
    (11 : Int) - 0 = 11 ∧
    resizeLeftUpdate 0 9 11 40 80 = some (11, 11) := by decide

/-- C3 (amended): a left-resize emits new start `= windowStart +
newOffsetDays` with the end unchanged, and is rejected exactly when
`newOffsetDays < 0` or `newOffsetDays` exceeds (strictly) the task's
current end offset: the start may reach the end date, collapsing the
task to one day, but may not cross past it. -/
theorem resize_left_spec :
    (∀ ws s e w δ ns ne : Int, resizeLeftUpdate ws s e w δ = some (ns, ne) →
      ns = ws + jsRound ((s - ws) * w + δ) w ∧ ne = e) ∧
    (∀ ws s e w δ : Int, resizeLeftUpdate ws s e w δ = none ↔
      (jsRound ((s - ws) * w + δ) w < 0 ∨ e - ws < jsRound ((s - ws) * w + δ) w)) := by
  constructor
  · intro ws s e w δ ns ne h
    by_cases h0 : 0 ≤ jsRound ((s - ws) * w + δ) w ∧
        jsRound ((s - ws) * w + δ) w < (s - ws) + (e - s + 1)
    · simp only [resizeLeftUpdate, if_pos h0, Option.some.injEq, Prod.mk.injEq] at h
      omega
    · simp only [resizeLeftUpdate, if_neg h0] at h
      exact Option.noConfusion h
  · intro ws s e w δ
    constructor
    · intro h
      by_cases h0 : 0 ≤ jsRound ((s - ws) * w + δ) w ∧
          jsRound ((s - ws) * w + δ) w < (s - ws) + (e - s + 1)
      · simp only [resizeLeftUpdate, if_pos h0] at h
        exact Option.noConfusion h
      · omega
    · intro h0
      simp only [resizeLeftUpdate, if_neg (by omega :
        ¬ (0 ≤ jsRound ((s - ws) * w + δ) w ∧
           jsRound ((s - ws) * w + δ) w < (s - ws) + (e - s + 1)))]

/-- Witness for `resize_left_spec`: both parts applied at concrete
inputs (window start 0, task days 9..11, day width 40). -/
theorem resize_left_spec_witness :
    ((10 : Int) = 0 + jsRound ((9 - 0) * 40 + 40) 40 ∧ (11 : Int) = 11) ∧
    (resizeLeftUpdate 0 9 11 40 (-1000) = none ↔
      (jsRound ((9 - 0) * 40 + (-1000)) 40 < 0 ∨
       (11 : Int) - 0 < jsRound ((9 - 0) * 40 + (-1000)) 40)) :=
  ⟨resize_left_spec.1 0 9 11 40 40 10 11 (by decide),
   resize_left_spec.2 0 9 11 40 (-1000)⟩

/-- C4: a right-resize emits new end `= original start + newDurationDays
− 1` with the start unchanged, nothing is emitted when
`newDurationDays ≤ 0`, and the concrete instance: task
2024-01-10..2024-01-12, dayWidth 40, delta −40px yields new end
2024-01-11. -/
theorem resize_right_spec :
    (∀ ws s e w δ ns ne : Int, resizeRightUpdate ws s e w δ = some (ns, ne) →
      ns = s ∧ ne = s + (jsRound ((e - s + 1) * w + δ) w - 1)) ∧
    (∀ ws s e w δ : Int, jsRound ((e - s + 1) * w + δ) w ≤ 0 →
      resizeRightUpdate ws s e w δ = none) ∧
    resizeRightUpdate 0 (daysFromCivil 2024 1 10) (daysFromCivil 2024 1 12) 40 (-40)
      = some (daysFromCivil 2024 1 10, daysFromCivil 2024 1 11) := by
  refine ⟨?_, ?_, by decide⟩
  · intro ws s e w δ ns ne h
    by_cases h0 : 0 < jsRound ((e - s + 1) * w + δ) w
    · simp only [resizeRightUpdate, if_pos h0, Option.some.injEq, Prod.mk.injEq] at h
      omega
    · simp only [resizeRightUpdate, if_neg h0] at h
      exact Option.noConfusion h
  · intro ws s e w δ h0
    simp only [resizeRightUpdate, if_neg (by omega :
      ¬ 0 < jsRound ((e - s + 1) * w + δ) w)]

/-- Witness for `resize_right_spec`: both conditional parts applied at
concrete inputs (task days 9..11, day width 40). -/
theorem resize_right_spec_witness :
    ((9 : Int) = 9 ∧ (10 : Int) = 9 + (jsRound ((11 - 9 + 1) * 40 + (-40)) 40 - 1)) ∧
    resizeRightUpdate 0 9 11 40 (-10000) = none :=
  ⟨resize_right_spec.1 0 9 11 40 (-40) 9 10 (by decide),
   resize_right_spec.2.1 0 9 11 40 (-10000) (by decide)⟩

/-! ### Hierarchy builder: characterization of the two passes -/

lemma mapSet_of_not_key (m : List (String × List String)) (k : String) (v : List String)
    (h : ¬ m.any (fun e => e.1 = k) = true) : mapSet m k v = m ++ [(k, v)] := by
  simp only [mapSet, if_neg h]

lemma firstPass_go (l : List TaskRow) :
    ∀ m : List (String × List String),
      (∀ t ∈ l, ∀ e ∈ m, e.1 ≠ t.id) → (l.map (fun t => t.id)).Nodup →
      l.foldl (fun m t => mapSet m t.id []) m = m ++ l.map (fun t => (t.id, [])) := by
  induction l with
  | nil => intro m _ _; simp
  | cons t l ih =>
    intro m hdisj hnd
    rw [List.map_cons, List.nodup_cons] at hnd
    have hkey : ¬ m.any (fun e => e.1 = t.id) = true := by
      simp only [List.any_eq_true, decide_eq_true_eq]
      rintro ⟨e, he, hek⟩
      exact hdisj t (by simp) e he hek
    rw [List.foldl_cons, mapSet_of_not_key m t.id [] hkey,
      ih (m ++ [(t.id, [])]) ?_ hnd.2]
    · simp
    · intro u hu e he
      rcases List.mem_append.mp he with h1 | h2
      · exact hdisj u (List.mem_cons_of_mem t hu) e h1
      · have h2' : e = (t.id, []) := by simpa using h2
        subst h2'
        intro hcontra
        have hc : t.id = u.id := hcontra
        exact hnd.1 (by rw [hc]; exact List.mem_map.mpr ⟨u, hu, rfl⟩)

lemma firstPass_eq (tasks : List TaskRow)
    (hnd : (tasks.map (fun t => t.id)).Nodup) :
    firstPass tasks = tasks.map (fun t => (t.id, [])) := by
  have h := firstPass_go tasks [] (by simp) hnd
  simpa [firstPass] using h

lemma foldl_hStep_fst (l : List TaskRow) :
    ∀ (m : List (String × List String)) (r : List String),
      (l.foldl hStep (m, r)).1 =
        m.map (fun e =>
          (e.1, e.2 ++ (l.filter (fun u => u.parent_id = some e.1)).map (fun u => u.id))) := by
  induction l with
  | nil => intro m r; simp
  | cons t l ih =>
    intro m r
    rw [List.foldl_cons]
    cases hp : t.parent_id with
    | none =>
      simp only [hStep, hp]
      rw [ih]
      apply List.map_congr_left
      intro e _
      simp [List.filter_cons, hp]
    | some p =>
      by_cases hk : m.any (fun e => e.1 = p) = true
      · simp only [hStep, hp, if_pos hk]
        rw [ih, pushChild, List.map_map]
        apply List.map_congr_left
        intro e _
        by_cases hep : e.1 = p
        · simp [Function.comp, hep, List.filter_cons, hp]
        · have hpe : ¬ p = e.1 := fun h => hep h.symm
          simp [Function.comp, hep, List.filter_cons, hp, hpe]
      · simp only [hStep, hp, if_neg hk]
        rw [ih]
        apply List.map_congr_left
        intro e he
        have hep : ¬ p = e.1 := by
          intro hpe
          exact hk (List.any_eq_true.mpr ⟨e, he, by simp [hpe]⟩)
        simp [List.filter_cons, hp, hep]

lemma foldl_hStep_snd (l : List TaskRow) :
    ∀ (m : List (String × List String)) (r : List String),
      (l.foldl hStep (m, r)).2 =
        r ++ (l.filter (fun u => u.parent_id = none)).map (fun u => u.id) := by
  induction l with
  | nil => intro m r; simp
  | cons t l ih =>
    intro m r
    rw [List.foldl_cons]
    cases hp : t.parent_id with
    | none =>
      simp only [hStep, hp]
      rw [ih]
      simp [List.filter_cons, hp]
    | some p =>
      by_cases hk : m.any (fun e => e.1 = p) = true
      · simp only [hStep, hp, if_pos hk]
        rw [ih]
        simp [List.filter_cons, hp]
      · simp only [hStep, hp, if_neg hk]
        rw [ih]
        simp [List.filter_cons, hp]

/-- Under distinct ids the built structure is explicit: each task's map
entry carries exactly the ids of the input tasks (in input order) whose
`parent_id` names it, and the root list carries exactly the ids of the
tasks with null `parent_id` (in input order). -/
lemma buildHierarchy_eq (tasks : List TaskRow)
    (hnd : (tasks.map (fun t => t.id)).Nodup) :
    buildHierarchy tasks =
      (tasks.map (fun t =>
        (t.id, (tasks.filter (fun u => u.parent_id = some t.id)).map (fun u => u.id))),
       (tasks.filter (fun u => u.parent_id = none)).map (fun u => u.id)) := by
  unfold buildHierarchy secondPass
  rw [firstPass_eq tasks hnd]
  refine Prod.ext ?_ ?_
  · rw [foldl_hStep_fst, List.map_map]
    apply List.map_congr_left
    intro t _
    simp
  · rw [foldl_hStep_snd]
    simp

lemma count_map_id_filter (t : TaskRow) (p : TaskRow → Bool) :
    ∀ tasks : List TaskRow, (tasks.map (fun u => u.id)).Nodup → t ∈ tasks →
      ((tasks.filter p).map (fun u => u.id)).count t.id = if p t then 1 else 0 := by
  intro tasks
  induction tasks with
  | nil => intro _ ht; cases ht
  | cons v l ih =>
    intro hnd ht
    rw [List.map_cons, List.nodup_cons] at hnd
    rcases List.mem_cons.mp ht with rfl | htl
    · have hzero : ((l.filter p).map (fun u => u.id)).count t.id = 0 := by
        rw [List.count_eq_zero]
        intro hmem
        obtain ⟨u, hu, hui⟩ := List.mem_map.mp hmem
        exact hnd.1 (hui ▸ List.mem_map.mpr ⟨u, List.mem_of_mem_filter hu, rfl⟩)
      rw [List.filter_cons]
      by_cases hq : p t = true
      · rw [if_pos hq, if_pos hq, List.map_cons, List.count_cons_self, hzero]
      · rw [if_neg hq, if_neg hq, hzero]
    · have hvt : ¬ (v.id == t.id) = true := by
        simp only [beq_iff_eq]
        intro h
        exact hnd.1 (h ▸ List.mem_map.mpr ⟨t, htl, rfl⟩)
      rw [List.filter_cons]
      by_cases hq : p v = true
      · rw [if_pos hq, List.map_cons, List.count_cons, if_neg hvt, ih hnd.2 htl]
        exact Nat.add_zero _
      · rw [if_neg hq, ih hnd.2 htl]

lemma sum_map_ite (l : List TaskRow) (q : TaskRow → Bool) :
    (l.map (fun u => if q u then (1 : Nat) else 0)).sum = l.countP q := by
  induction l with
  | nil => simp
  | cons v l ih =>
    rw [List.map_cons, List.sum_cons, List.countP_cons, ih]
    exact Nat.add_comm _ _

lemma count_map_id (tasks : List TaskRow) (p : String) :
    (tasks.map (fun u => u.id)).count p = tasks.countP (fun u => u.id = p) := by
  induction tasks with
  | nil => simp
  | cons v l ih =>
    rw [List.map_cons, List.count_cons, List.countP_cons, ih]
    simp [beq_iff_eq]

lemma occurrences_closed_form (tasks : List TaskRow)
    (hnd : (tasks.map (fun t => t.id)).Nodup) (t : TaskRow) (ht : t ∈ tasks) :
    occurrences (buildHierarchy tasks) t.id =
      (if t.parent_id = none then 1 else 0) +
      tasks.countP (fun u => t.parent_id = some u.id) := by
  rw [buildHierarchy_eq tasks hnd]
  unfold occurrences
  rw [List.map_map]
  have h1 : ((tasks.filter (fun u => u.parent_id = none)).map (fun u => u.id)).count t.id
      = if t.parent_id = none then 1 else 0 := by
    rw [count_map_id_filter t _ tasks hnd ht]
    simp
  have h2 : tasks.map ((fun e : String × List String => e.2.count t.id) ∘
        (fun u => (u.id, (tasks.filter (fun v => v.parent_id = some u.id)).map (fun v => v.id))))
      = tasks.map (fun u => if t.parent_id = some u.id then (1 : Nat) else 0) := by
    apply List.map_congr_left
    intro u _
    show ((tasks.filter (fun v => v.parent_id = some u.id)).map (fun v => v.id)).count t.id = _
    rw [count_map_id_filter t _ tasks hnd ht]
    simp
  rw [h1, h2]
  have h3 : tasks.map (fun u => if t.parent_id = some u.id then (1 : Nat) else 0)
      = tasks.map (fun u => if (fun v : TaskRow => decide (t.parent_id = some v.id)) u then (1 : Nat) else 0) := by
    apply List.map_congr_left
    intro u _
    simp
  rw [h3, sum_map_ite]

/-- C1: with distinct ids, every parent reference null or resolving to
an input task, and an acyclic parent relation, the built forest
contains each input task exactly once: its id occurs once across the
root list and all `subtasks` lists together (no duplication, no
loss). -/
theorem hierarchy_preserves_tasks (tasks : List TaskRow)
    (hnd : (tasks.map (fun t => t.id)).Nodup)
    (hpar : ∀ t ∈ tasks, ∀ p, t.parent_id = some p → p ∈ tasks.map (fun u => u.id))
    (hacyc : acyclicParents tasks) :
    ∀ t ∈ tasks, occurrences (buildHierarchy tasks) t.id = 1 := by
  intro t ht
  rw [occurrences_closed_form tasks hnd t ht]
  cases hp : t.parent_id with
  | none =>
    have hz : tasks.countP (fun u => (none : Option String) = some u.id) = 0 := by
      rw [List.countP_eq_zero]
      intro u _
      simp
    rw [hz]
    simp
  | some p =>
    have hone : tasks.countP (fun u => some p = some u.id) = 1 := by
      have hcong : tasks.countP (fun u => some p = some u.id)
          = tasks.countP (fun u => u.id = p) := by
        apply List.countP_congr
        intro u _
        simp [eq_comm]
      rw [hcong, ← count_map_id]
      exact List.count_eq_one_of_mem hnd (hpar t ht p hp)
    rw [hone]
    simp

/-- Witness for `hierarchy_preserves_tasks`: a three-task input (root
`a` with children `b`, `c`); the child `b` occurs exactly once in the
built forest. -/
theorem hierarchy_preserves_tasks_witness :
    occurrences (buildHierarchy
      [⟨"a", none, 0⟩, ⟨"b", some "a", 1⟩, ⟨"c", some "a", 2⟩]) "b" = 1 :=
  hierarchy_preserves_tasks
    [⟨"a", none, 0⟩, ⟨"b", some "a", 1⟩, ⟨"c", some "a", 2⟩]
    (by decide) (by decide) (by decide) ⟨"b", some "a", 1⟩ (by decide)

lemma find_id_of_mem (u : TaskRow) :
    ∀ tasks : List TaskRow, (tasks.map (fun t => t.id)).Nodup → u ∈ tasks →
      tasks.find? (fun t => t.id = u.id) = some u := by
  intro tasks
  induction tasks with
  | nil => intro _ hu; cases hu
  | cons v l ih =>
    intro hnd hu
    rw [List.map_cons, List.nodup_cons] at hnd
    rcases List.mem_cons.mp hu with rfl | hul
    · simp [List.find?_cons]
    · have hvu : ¬ (v.id = u.id) := by
        intro h
        exact hnd.1 (by rw [h]; exact List.mem_map.mpr ⟨u, hul, rfl⟩)
      simp [List.find?_cons, hvu]
      exact ih hnd.2 hul

lemma indexOf_eq (tasks : List TaskRow)
    (hnd : (tasks.map (fun t => t.id)).Nodup) (u : TaskRow) (hu : u ∈ tasks) :
    indexOf tasks u.id = u.order_index := by
  unfold indexOf
  rw [find_id_of_mem u tasks hnd hu]

/-- C7: when the input is sorted by ordering index ascending (as the
fetch's `order(order_index, ascending)` guarantees) and ids are
distinct, the root sequence and every node's `subtasks` sequence are in
ascending ordering-index order. -/
theorem siblings_sorted (tasks : List TaskRow)
    (hnd : (tasks.map (fun t => t.id)).Nodup)
    (hsorted : tasks.Pairwise (fun a b => a.order_index ≤ b.order_index)) :
    ((buildHierarchy tasks).2.map (indexOf tasks)).Pairwise (· ≤ ·) ∧
    ∀ e ∈ (buildHierarchy tasks).1,
      (e.2.map (indexOf tasks)).Pairwise (· ≤ ·) := by
  have key : ∀ p : TaskRow → Bool,
      (((tasks.filter p).map (fun u => u.id)).map (indexOf tasks)).Pairwise (· ≤ ·) := by
    intro p
    rw [List.map_map, List.pairwise_map]
    have hsub : (tasks.filter p).Pairwise (fun a b => a.order_index ≤ b.order_index) :=
      hsorted.filter p
    refine hsub.imp_of_mem ?_
    intro a b ha hb hab
    show indexOf tasks a.id ≤ indexOf tasks b.id
    rw [indexOf_eq tasks hnd a (List.mem_of_mem_filter ha),
      indexOf_eq tasks hnd b (List.mem_of_mem_filter hb)]
    exact hab
  constructor
  · rw [buildHierarchy_eq tasks hnd]
    exact key _
  · intro e he
    rw [buildHierarchy_eq tasks hnd] at he
    obtain ⟨t', _, rfl⟩ := List.mem_map.mp he
    exact key _

/-- Witness for `siblings_sorted`: the root list of a concrete sorted
input is in ascending ordering-index order. -/
theorem siblings_sorted_witness :
    ((buildHierarchy [⟨"a", none, 0⟩, ⟨"b", some "a", 1⟩, ⟨"c", none, 2⟩]).2.map
      (indexOf [⟨"a", none, 0⟩, ⟨"b", some "a", 1⟩, ⟨"c", none, 2⟩])).Pairwise (· ≤ ·) :=
  (siblings_sorted [⟨"a", none, 0⟩, ⟨"b", some "a", 1⟩, ⟨"c", none, 2⟩]
    (by decide) (by decide)).1

/-- C8: a task whose `parent_id` is non-null but names no fetched task
is silently dropped: the (total, never-raising) builder leaves its id
out of the root list and out of every node's `subtasks` list. -/
theorem orphan_silently_dropped (tasks : List TaskRow)
    (hnd : (tasks.map (fun t => t.id)).Nodup) :
    ∀ t ∈ tasks, ∀ p, t.parent_id = some p → p ∉ tasks.map (fun u => u.id) →
      occurrences (buildHierarchy tasks) t.id = 0 := by
  intro t ht p hp hnp
  rw [occurrences_closed_form tasks hnd t ht]
  have hz : tasks.countP (fun u => t.parent_id = some u.id) = 0 := by
    rw [List.countP_eq_zero]
    intro u hu
    simp only [hp, decide_eq_true_eq, Option.some.injEq]
    intro hpu
    exact hnp (hpu ▸ List.mem_map.mpr ⟨u, hu, rfl⟩)
  rw [hz]
  simp [hp]


/-! ### Month header grouping: the loop computes the maximal runs -/

lemma runsIdx_succ (key : Nat → Nat × Int) (rem i : Nat) :
    runsIdx key (rem + 1) i =
      (key i, runLenF key rem i, i) ::
        runsIdx key (rem + 1 - runLenF key rem i) (i + runLenF key rem i) := by
  rw [runsIdx]

lemma runLenF_all_eq (key : Nat → Nat × Int) :
    ∀ f i : Nat, (∀ j, j ≤ f → key (i + j) = key i) → runLenF key f i = f + 1 := by
  intro f
  induction f with
  | zero => intro i _; rfl
  | succ f ih =>
    intro i h
    have hk1 : key (i + 1) = key i := h 1 (by omega)
    simp only [runLenF, if_pos hk1]
    have hrec := ih (i + 1) (fun j hj => by
      have e1 : i + 1 + j = i + (1 + j) := by omega
      rw [e1, h (1 + j) (by omega), hk1])
    rw [hrec]

lemma runLenF_stops (key : Nat → Nat × Int) :
    ∀ m : Nat, 1 ≤ m → ∀ f i : Nat, m ≤ f →
      (∀ j, j < m → key (i + j) = key i) → key (i + m) ≠ key i →
      runLenF key f i = m := by
  intro m
  induction m with
  | zero => intro h; omega
  | succ m ih =>
    intro _ f i hmf hall hb
    cases f with
    | zero => omega
    | succ f =>
      rcases Nat.eq_zero_or_pos m with rfl | hm
      · simp only [runLenF, if_neg hb]
      · have hk1 : key (i + 1) = key i := hall 1 (by omega)
        simp only [runLenF, if_pos hk1]
        have hrec := ih (by omega) f (i + 1) (by omega)
          (fun j hj => by
            have e1 : i + 1 + j = i + (1 + j) := by omega
            rw [e1, hall (1 + j) (by omega), hk1])
          (by
            have e2 : i + 1 + m = i + (m + 1) := by omega
            rw [e2, hk1]
            exact hb)
        rw [hrec]

lemma ganttLoop_runs (key : Nat → Nat × Int) (lab : Nat → String)
    (hlab : ∀ j, lab j = labelKey (key j)) :
    ∀ rem i md ms ck,
      md = i - ms → ms ≤ i → 1 ≤ md + rem →
      (∀ j, ms ≤ j → j < i → key j = ck) → (md = 0 → ck = key i) →
      (ganttLoop key lab rem i ck md ms).1 ++
          [(lab (i + rem - 1),
            (ganttLoop key lab rem i ck md ms).2.1,
            (ganttLoop key lab rem i ck md ms).2.2)] =
        (runsIdx key (md + rem) ms).map (fun g => (labelKey g.1, g.2.1, g.2.2)) := by
  intro rem
  induction rem with
  | zero =>
    intro i md ms ck h1 h2 h3 h4 h5
    simp only [ganttLoop, List.nil_append]
    obtain ⟨md', rfl⟩ : ∃ md', md = md' + 1 := ⟨md - 1, by omega⟩
    rw [Nat.add_zero, runsIdx_succ]
    have hrun : runLenF key md' ms = md' + 1 := by
      apply runLenF_all_eq
      intro j hj
      have hj1 : key (ms + j) = ck := h4 (ms + j) (by omega) (by omega)
      have hms : key ms = ck := h4 ms le_rfl (by omega)
      rw [hj1, hms]
    rw [hrun]
    have hz : md' + 1 - (md' + 1) = 0 := by omega
    rw [hz]
    simp only [runsIdx, List.map_cons, List.map_nil]
    rw [hlab]
    have hk1 : key (i - 1) = ck := h4 _ (by omega) (by omega)
    have hk2 : key ms = ck := h4 ms le_rfl (by omega)
    rw [hk1, hk2]
  | succ r ih =>
    intro i md ms ck h1 h2 h3 h4 h5
    by_cases hk : key i = ck
    · simp only [ganttLoop, if_pos hk]
      have e1 : i + (r + 1) - 1 = i + 1 + r - 1 := by omega
      rw [e1]
      have hrec := ih (i + 1) (md + 1) ms ck (by omega) (by omega) (by omega)
        (fun j hj1 hj2 => by
          rcases Nat.lt_or_ge j i with hji | hji
          · exact h4 j hj1 hji
          · have hij : j = i := by omega
            rw [hij]
            exact hk)
        (fun h0 => absurd h0 (by omega))
      have e2 : md + (r + 1) = md + 1 + r := by omega
      rw [e2]
      exact hrec
    · have hmd : 1 ≤ md := by
        by_contra hmd0
        exact hk (h5 (by omega)).symm
      simp only [ganttLoop, if_neg hk, List.cons_append]
      have e1 : i + (r + 1) - 1 = i + 1 + r - 1 := by omega
      rw [e1]
      have hrest := ih (i + 1) 1 i (key i) (by omega) (by omega) (by omega)
        (fun j hj1 hj2 => by
          have hij : j = i := by omega
          rw [hij])
        (fun h0 => absurd h0 (by omega))
      have e2 : md + (r + 1) = (md + r) + 1 := by omega
      rw [e2, runsIdx_succ]
      have hrun : runLenF key (md + r) ms = md := by
        apply runLenF_stops key md hmd (md + r) ms (by omega)
        · intro j hj
          have hms : key ms = ck := h4 ms le_rfl (by omega)
          rw [h4 (ms + j) (by omega) (by omega), hms]
        · have e4 : ms + md = i := by omega
          rw [e4]
          have hms : key ms = ck := h4 ms le_rfl (by omega)
          rw [hms]
          exact hk
      rw [hrun]
      have e3 : md + r + 1 - md = r + 1 := by omega
      have e4 : ms + md = i := by omega
      rw [e3, e4, List.map_cons]
      congr 1
      · rw [hlab]
        have hk1 : key (i - 1) = ck := h4 _ (by omega) (by omega)
        have hk2 : key ms = ck := h4 ms le_rfl (by omega)
        rw [hk1, hk2]
      · have e5 : (1 : Nat) + r = r + 1 := by omega
        rw [e5] at hrest
        exact hrest

/-- C5: the month-header grouping equals, for every inclusive window
(`totalDays ≥ 1`, `endDate = startDate + totalDays − 1`), one (label,
dayCount, startDayIndex) group per maximal run of consecutive days
sharing the same (month, year) pair with the final group always
flushed; and over the window 2024-01-29..2024-02-03 it emits exactly
("Jan 2024", 3, 0) and ("Feb 2024", 3, 3). -/
theorem month_header_groups :
    (∀ (start : Int) (n : Nat), 1 ≤ n →
      timelineMonths start (start + (n : Int) - 1) n = monthHeaderSpec start n) ∧
    timelineMonths (daysFromCivil 2024 1 29) (daysFromCivil 2024 2 3) 6
      = [("Jan 2024", 3, 0), ("Feb 2024", 3, 3)] := by
  refine ⟨?_, by decide⟩
  intro start n hn
  unfold timelineMonths monthHeaderSpec
  have hlab : ∀ j, windowLab start j = labelKey (windowKey start j) := fun _ => rfl
  have hmain := ganttLoop_runs (windowKey start) (windowLab start) hlab n 0 0 0
    (windowKey start 0) rfl le_rfl (by omega)
    (fun j hj1 hj2 => absurd hj2 (by omega))
    (fun _ => rfl)
  have hend : windowLab start (0 + n - 1) = fmtMonth (start + (n : Int) - 1) := by
    unfold windowLab
    congr 1
    have hc : ((0 + n - 1 : Nat) : Int) = (n : Int) - 1 := by omega
    rw [hc]
    ring
  rw [hend] at hmain
  have hzn : 0 + n = n := by omega
  rw [hzn] at hmain
  exact hmain


/-! ### Mutation failure atomicity and the delete frame effect -/

/-- C9: for each of the five mutation operations, a storage-layer error
leaves the in-memory forest exactly as it was (no partial apply),
returns the failure value (`none` for create/update, `false` for the
rest) to the immediate caller, and reports only the one generic
destructive "Error" toast for that operation.  For `deleteTask` both
failure points (children delete, self delete) are covered. -/
theorem mutation_failure_atomic :
    (∀ (st : HookState) (msg : String) (rT : DbResult (List TaskRow)) (rD : DbResult Unit),
      createTask st (.err msg) rT rD = (st, none, [errorToast "Failed to create task"])) ∧
    (∀ (st : HookState) (msg : String) (rT : DbResult (List TaskRow)) (rD : DbResult Unit),
      updateTask st (.err msg) rT rD = (st, none, [errorToast "Failed to update task"])) ∧
    (∀ (st : HookState) (msg : String) (r2 : DbResult Unit)
        (rT : DbResult (List TaskRow)) (rD : DbResult Unit),
      deleteTask st (.err msg) r2 rT rD = (st, false, [errorToast "Failed to delete task"])) ∧
    (∀ (st : HookState) (msg : String) (rT : DbResult (List TaskRow)) (rD : DbResult Unit),
      deleteTask st (.ok ()) (.err msg) rT rD
        = (st, false, [errorToast "Failed to delete task"])) ∧
    (∀ (st : HookState) (msg : String) (rT : DbResult (List TaskRow)) (rD : DbResult Unit),
      addDependency st (.err msg) rT rD
        = (st, false, [errorToast "Failed to add dependency"])) ∧
    (∀ (st : HookState) (msg : String) (rT : DbResult (List TaskRow)) (rD : DbResult Unit),
      removeDependency st (.err msg) rT rD
        = (st, false, [errorToast "Failed to remove dependency"])) ∧
    (∀ msg : String, (errorToast msg).title = "Error" ∧ (errorToast msg).destructive = true) :=
  ⟨fun _ _ _ _ => rfl, fun _ _ _ _ => rfl, fun _ _ _ _ _ => rfl, fun _ _ _ _ => rfl,
   fun _ _ _ _ => rfl, fun _ _ _ _ => rfl, fun _ => ⟨rfl, rfl⟩⟩

/-! ### Storage cascade: `deleteTask` removes exactly the subtree -/

lemma contains_eq_decide (l : List String) (a : String) :
    l.contains a = decide (a ∈ l) := by
  by_cases hm : a ∈ l
  · rw [decide_eq_true hm]
    exact List.elem_iff.mpr hm
  · rw [decide_eq_false hm]
    exact Bool.eq_false_iff.mpr (fun hc => hm (List.elem_iff.mp hc))

lemma subset_cascadeOnce (table : List TaskRow) (dead : List String) :
    dead ⊆ cascadeOnce table dead :=
  List.subset_append_left _ _

lemma subset_cascadeIter (table : List TaskRow) :
    ∀ (n : Nat) (dead : List String), dead ⊆ cascadeIter table n dead := by
  intro n
  induction n with
  | zero => intro dead a ha; exact ha
  | succ n ih =>
    intro dead a ha
    exact ih (cascadeOnce table dead) (subset_cascadeOnce table dead ha)

lemma cascadeIter_stationary (table : List TaskRow) (dead : List String)
    (h : cascadeOnce table dead = dead) :
    ∀ n, cascadeIter table n dead = dead := by
  intro n
  induction n with
  | zero => rfl
  | succ n ih =>
    show cascadeIter table n (cascadeOnce table dead) = dead
    rw [h]
    exact ih

lemma countP_le_of_imp (l : List TaskRow) (p q : TaskRow → Bool)
    (h : ∀ a ∈ l, q a = true → p a = true) :
    l.countP q ≤ l.countP p := by
  induction l with
  | nil => simp
  | cons b l ih =>
    rw [List.countP_cons, List.countP_cons]
    have hb := h b (by simp)
    have ht := ih (fun a ha => h a (by simp [ha]))
    by_cases hq : q b = true
    · rw [if_pos hq, if_pos (hb hq)]
      omega
    · rw [if_neg hq]
      split <;> omega

lemma countP_lt_of_witness (l : List TaskRow) (p q : TaskRow → Bool)
    (h : ∀ a ∈ l, q a = true → p a = true)
    (a₀ : TaskRow) (ha : a₀ ∈ l) (hp : p a₀ = true) (hq : q a₀ = false) :
    l.countP q < l.countP p := by
  induction l with
  | nil => cases ha
  | cons b l ih =>
    rw [List.countP_cons, List.countP_cons]
    rcases List.mem_cons.mp ha with rfl | hal
    · have hnq : ¬ (q a₀ = true) := by rw [hq]; exact Bool.false_ne_true
      rw [if_neg hnq, if_pos hp]
      have ht := countP_le_of_imp l p q (fun a ha' => h a (by simp [ha']))
      omega
    · have ht := ih (fun a ha' => h a (by simp [ha'])) hal
      have hb := h b (by simp)
      by_cases hqb : q b = true
      · rw [if_pos hqb, if_pos (hb hqb)]
        omega
      · rw [if_neg hqb]
        split <;> omega

lemma cascadeOnce_progress (table : List TaskRow) (dead : List String) :
    cascadeOnce table dead = dead ∨
    table.countP (fun r => !((cascadeOnce table dead).contains r.id)) <
      table.countP (fun r => !(dead.contains r.id)) := by
  by_cases hnil : table.filter (fun r =>
      !(dead.contains r.id) &&
        match r.parent_id with
        | some p => dead.contains p
        | none => false) = []
  · left
    unfold cascadeOnce
    rw [hnil]
    simp
  · right
    obtain ⟨r₀, hr₀⟩ := List.exists_mem_of_ne_nil _ hnil
    have hr₀t : r₀ ∈ table := List.mem_of_mem_filter hr₀
    have hr₀p := List.of_mem_filter hr₀
    rw [Bool.and_eq_true] at hr₀p
    apply countP_lt_of_witness table _ _ ?_ r₀ hr₀t hr₀p.1 ?_
    · intro a _ hqa
      rw [contains_eq_decide, Bool.not_eq_true', decide_eq_false_iff_not] at hqa ⊢
      exact fun hmem => hqa (subset_cascadeOnce table dead hmem)
    · rw [contains_eq_decide]
      have hmem : r₀.id ∈ cascadeOnce table dead := by
        unfold cascadeOnce
        exact List.mem_append.mpr (Or.inr (List.mem_map.mpr ⟨r₀, hr₀, rfl⟩))
      rw [decide_eq_true hmem]
      rfl

lemma cascadeIter_fix (table : List TaskRow) :
    ∀ (n : Nat) (dead : List String),
      table.countP (fun r => !(dead.contains r.id)) ≤ n →
      cascadeOnce table (cascadeIter table n dead) = cascadeIter table n dead := by
  intro n
  induction n with
  | zero =>
    intro dead hc
    have h0 := List.countP_eq_zero.mp (Nat.le_zero.mp hc)
    show cascadeOnce table dead = dead
    unfold cascadeOnce
    have hfil : table.filter (fun r =>
        !(dead.contains r.id) &&
          match r.parent_id with
          | some p => dead.contains p
          | none => false) = [] := by
      rw [List.filter_eq_nil_iff]
      intro r hr
      rw [Bool.and_eq_true]
      rintro ⟨h1, _⟩
      exact h0 r hr h1
    rw [hfil]
    simp
  | succ n ih =>
    intro dead hc
    rcases cascadeOnce_progress table dead with hstat | hdec
    · rw [cascadeIter_stationary table dead hstat (n + 1)]
      exact hstat
    · show cascadeOnce table (cascadeIter table n (cascadeOnce table dead)) = _
      exact ih (cascadeOnce table dead) (by omega)

lemma cascadeClosure_fix (table : List TaskRow) (d : List String) :
    cascadeOnce table (cascadeClosure table d) = cascadeClosure table d := by
  unfold cascadeClosure
  exact cascadeIter_fix table table.length d (List.countP_le_length _)

lemma mem_cascadeClosure_of_mem (table : List TaskRow) (d : List String)
    (a : String) (ha : a ∈ d) : a ∈ cascadeClosure table d :=
  subset_cascadeIter table table.length d ha

lemma cascadeClosure_closed (table : List TaskRow) (d : List String)
    (r : TaskRow) (hr : r ∈ table) (p : String) (hp : r.parent_id = some p)
    (hpd : p ∈ cascadeClosure table d) :
    r.id ∈ cascadeClosure table d := by
  by_contra hrd
  have hmem : r.id ∈ cascadeOnce table (cascadeClosure table d) := by
    unfold cascadeOnce
    refine List.mem_append.mpr (Or.inr (List.mem_map.mpr ⟨r, ?_, rfl⟩))
    refine List.mem_filter.mpr ⟨hr, ?_⟩
    rw [Bool.and_eq_true]
    constructor
    · rw [contains_eq_decide, Bool.not_eq_true', decide_eq_false_iff_not]
      exact hrd
    · rw [hp]
      show (cascadeClosure table d).contains p = true
      rw [contains_eq_decide]
      exact decide_eq_true hpd
  rw [cascadeClosure_fix table d] at hmem
  exact hrd hmem

lemma cascadeOnce_sound (table : List TaskRow) (P : String → Prop)
    (hstep : ∀ r ∈ table, ∀ p, r.parent_id = some p → P p → P r.id)
    (dead : List String) (hd : ∀ j ∈ dead, P j) :
    ∀ j ∈ cascadeOnce table dead, P j := by
  intro j hj
  unfold cascadeOnce at hj
  rcases List.mem_append.mp hj with h1 | h2
  · exact hd j h1
  · obtain ⟨r, hrf, rfl⟩ := List.mem_map.mp h2
    have hrt := List.mem_of_mem_filter hrf
    have hpred := List.of_mem_filter hrf
    rw [Bool.and_eq_true] at hpred
    cases hpp : r.parent_id with
    | none =>
      rw [hpp] at hpred
      have hfalse : (false : Bool) = true := hpred.2
      exact absurd hfalse (by decide)
    | some p =>
      rw [hpp] at hpred
      have h2' : dead.contains p = true := hpred.2
      rw [contains_eq_decide, decide_eq_true_eq] at h2'
      exact hstep r hrt p hpp (hd p h2')

lemma cascadeClosure_sound (table : List TaskRow) (P : String → Prop)
    (hstep : ∀ r ∈ table, ∀ p, r.parent_id = some p → P p → P r.id)
    (d : List String) (hd : ∀ j ∈ d, P j) :
    ∀ j ∈ cascadeClosure table d, P j := by
  unfold cascadeClosure
  generalize table.length = n
  induction n generalizing d with
  | zero => exact hd
  | succ n ih =>
    exact ih (cascadeOnce table d) (cascadeOnce_sound table P hstep d hd)

lemma ancestorIter_step_some (tasks : List TaskRow)
    (hnd : (tasks.map (fun t => t.id)).Nodup) (r : TaskRow) (hr : r ∈ tasks)
    (p : String) (hp : r.parent_id = some p) (k : Nat) :
    ancestorIter tasks (k + 1) r.id = ancestorIter tasks k p := by
  show (match tasks.find? (fun t => t.id = r.id) with
    | some t =>
      match t.parent_id with
      | some q => ancestorIter tasks k q
      | none => none
    | none => none) = ancestorIter tasks k p
  rw [find_id_of_mem r tasks hnd hr]
  show (match r.parent_id with
    | some q => ancestorIter tasks k q
    | none => none) = ancestorIter tasks k p
  rw [hp]

lemma ancestorIter_step_none (tasks : List TaskRow)
    (hnd : (tasks.map (fun t => t.id)).Nodup) (r : TaskRow) (hr : r ∈ tasks)
    (hp : r.parent_id = none) (k : Nat) :
    ancestorIter tasks (k + 1) r.id = none := by
  show (match tasks.find? (fun t => t.id = r.id) with
    | some t =>
      match t.parent_id with
      | some q => ancestorIter tasks k q
      | none => none
    | none => none) = none
  rw [find_id_of_mem r tasks hnd hr]
  show (match r.parent_id with
    | some q => ancestorIter tasks k q
    | none => none) = none
  rw [hp]

lemma ancestorIter_none_succ (tasks : List TaskRow) :
    ∀ (n : Nat) (j : String), ancestorIter tasks n j = none →
      ancestorIter tasks (n + 1) j = none := by
  intro n
  induction n with
  | zero =>
    intro j h
    exact absurd h (by simp [ancestorIter])
  | succ n ih =>
    intro j h
    cases hf : tasks.find? (fun t => t.id = j) with
    | none =>
      show (match tasks.find? (fun t => t.id = j) with
        | some t =>
          match t.parent_id with
          | some q => ancestorIter tasks (n + 1) q
          | none => none
        | none => none) = none
      rw [hf]
    | some t =>
      cases hpp : t.parent_id with
      | none =>
        show (match tasks.find? (fun u => u.id = j) with
          | some u =>
            match u.parent_id with
            | some q => ancestorIter tasks (n + 1) q
            | none => none
          | none => none) = none
        rw [hf]
        show (match t.parent_id with
          | some q => ancestorIter tasks (n + 1) q
          | none => none) = none
        rw [hpp]
      | some p =>
        have hh : (match tasks.find? (fun u => u.id = j) with
          | some u =>
            match u.parent_id with
            | some q => ancestorIter tasks n q
            | none => none
          | none => none) = none := h
        rw [hf] at hh
        have hh2 : (match t.parent_id with
          | some q => ancestorIter tasks n q
          | none => none) = none := hh
        rw [hpp] at hh2
        have hh3 : ancestorIter tasks n p = none := hh2
        show (match tasks.find? (fun u => u.id = j) with
          | some u =>
            match u.parent_id with
            | some q => ancestorIter tasks (n + 1) q
            | none => none
          | none => none) = none
        rw [hf]
        show (match t.parent_id with
          | some q => ancestorIter tasks (n + 1) q
          | none => none) = none
        rw [hpp]
        exact ih p hh3

lemma ancestorIter_none_le (tasks : List TaskRow) (n m : Nat) (j : String)
    (hnm : n ≤ m) (h : ancestorIter tasks n j = none) :
    ancestorIter tasks m j = none := by
  induction m, hnm using Nat.le_induction with
  | base => exact h
  | succ m _ ih => exact ancestorIter_none_succ tasks m j ih

lemma chain_lt_length (tasks : List TaskRow) (hacyc : acyclicParents tasks)
    (r : TaskRow) (hr : r ∈ tasks) (k : Nat) (x : String)
    (hx : ancestorIter tasks k r.id = some x) :
    k < tasks.length := by
  by_contra hk
  have hnone := ancestorIter_none_le tasks tasks.length k r.id (by omega) (hacyc r hr)
  rw [hnone] at hx
  exact Option.noConfusion hx

lemma ancestorIter_src_mem (tasks : List TaskRow) (k : Nat) (j x : String)
    (h : ancestorIter tasks (k + 1) j = some x) :
    ∃ q ∈ tasks, q.id = j := by
  cases hf : tasks.find? (fun t => t.id = j) with
  | none =>
    have hh : (match tasks.find? (fun u => u.id = j) with
      | some u =>
        match u.parent_id with
        | some q => ancestorIter tasks k q
        | none => none
      | none => none) = some x := h
    rw [hf] at hh
    exact absurd hh (by simp)
  | some t =>
    refine ⟨t, List.mem_of_find?_eq_some hf, ?_⟩
    have := List.find?_some hf
    simpa using this

lemma inSubtree_child (table : List TaskRow) (i : String)
    (hnd : (table.map (fun t => t.id)).Nodup) (hacyc : acyclicParents table)
    (r : TaskRow) (hr : r ∈ table) (p : String) (hp : r.parent_id = some p)
    (hsub : inSubtree table i p) : inSubtree table i r.id := by
  obtain ⟨k, hk, hchain⟩ := hsub
  rcases Nat.eq_zero_or_pos k with rfl | hkpos
  · have hpi : p = i := by simpa [ancestorIter] using hchain
    refine ⟨1, ?_, ?_⟩
    · have hlen : 0 < table.length := List.length_pos.mpr (by
        intro hnil
        rw [hnil] at hr
        cases hr)
      omega
    · rw [ancestorIter_step_some table hnd r hr p hp 0, hpi]
      rfl
  · obtain ⟨q, hq, hqid⟩ := ancestorIter_src_mem table (k - 1) p i (by
      have he : k - 1 + 1 = k := by omega
      rw [he]
      exact hchain)
    have hklt : k < table.length :=
      chain_lt_length table hacyc q hq k i (by rw [hqid]; exact hchain)
    refine ⟨k + 1, by omega, ?_⟩
    rw [ancestorIter_step_some table hnd r hr p hp k]
    exact hchain

lemma strict_chain_mem_closure (table : List TaskRow) (i : String)
    (hnd : (table.map (fun t => t.id)).Nodup) :
    ∀ k, ∀ r ∈ table, ancestorIter table (k + 1) r.id = some i →
      r.id ∈ cascadeClosure table
        ((table.filter (fun u => u.parent_id = some i)).map (fun u => u.id)) := by
  intro k
  induction k with
  | zero =>
    intro r hr hchain
    cases hp : r.parent_id with
    | none =>
      rw [ancestorIter_step_none table hnd r hr hp 0] at hchain
      exact absurd hchain (by simp)
    | some p =>
      rw [ancestorIter_step_some table hnd r hr p hp 0] at hchain
      have hpi : p = i := by simpa [ancestorIter] using hchain
      apply mem_cascadeClosure_of_mem
      exact List.mem_map.mpr ⟨r, List.mem_filter.mpr ⟨hr, by simp [hp, hpi]⟩, rfl⟩
  | succ k ih =>
    intro r hr hchain
    cases hp : r.parent_id with
    | none =>
      rw [ancestorIter_step_none table hnd r hr hp (k + 1)] at hchain
      exact absurd hchain (by simp)
    | some p =>
      rw [ancestorIter_step_some table hnd r hr p hp (k + 1)] at hchain
      obtain ⟨q, hq, hqid⟩ := ancestorIter_src_mem table k p i hchain
      have hqC := ih q hq (by rw [hqid]; exact hchain)
      exact cascadeClosure_closed table _ r hr p hp (by rw [← hqid]; exact hqC)

/-- C10 counterexample: under the `ON DELETE CASCADE` foreign key on
`tasks.parent_id` (migration line 28), deleting task `a` of the chain
`a ← b ← c` also removes the grandchild `c`: the first client delete
(`parent_id = a`) removes `b` and the cascade removes `c`.  The claim's
assertion that such grandchildren are left unchanged, surviving with a
dangling parent reference, is false of the program. -/
theorem delete_task_rows_counterexample :
    (⟨"c", some "b", 2⟩ : TaskRow) ∈
        ([⟨"a", none, 0⟩, ⟨"b", some "a", 1⟩, ⟨"c", some "b", 2⟩] : List TaskRow) ∧
    (⟨"c", some "b", 2⟩ : TaskRow) ∉
        deleteTaskRows [⟨"a", none, 0⟩, ⟨"b", some "a", 1⟩, ⟨"c", some "b", 2⟩] "a" := by
  decide

/-- C10 (amended): with distinct ids and acyclic parent references, the
storage effect of `deleteTask(id)` removes exactly the subtree rooted
at `id` — the rows whose parent chain reaches `id`, the row itself
included — leaving every other row unchanged and in order; and no
surviving row's parent reference dangles: a surviving row's parent,
when present in the table, survives as well. -/
theorem delete_task_cascades_subtree (table : List TaskRow) (i : String)
    (hnd : (table.map (fun t => t.id)).Nodup)
    (hacyc : acyclicParents table) :
    deleteTaskRows table i = table.filter (fun r => ¬ inSubtree table i r.id) ∧
    (∀ r ∈ deleteTaskRows table i, ∀ p, r.parent_id = some p →
      p ∈ table.map (fun t => t.id) →
      ∃ q ∈ deleteTaskRows table i, q.id = p) := by
  set d1 := (table.filter (fun u => u.parent_id = some i)).map (fun u => u.id) with hd1
  set C1 := cascadeClosure table d1 with hC1
  set A := table.filter (fun r => !(C1.contains r.id)) with hA
  set d2 := (A.filter (fun r => r.id = i)).map (fun r => r.id) with hd2
  set C2 := cascadeClosure A d2 with hC2
  have hres : deleteTaskRows table i = A.filter (fun r => !(C2.contains r.id)) := rfl
  have hkey : ∀ r ∈ table, ((r.id ∉ C1 ∧ r.id ∉ C2) ↔ ¬ inSubtree table i r.id) := by
    intro r hr
    constructor
    · rintro ⟨h1, h2⟩ ⟨k, hk, hchain⟩
      cases k with
      | zero =>
        have hri : r.id = i := by simpa [ancestorIter] using hchain
        apply h2
        apply mem_cascadeClosure_of_mem
        rw [hd2]
        refine List.mem_map.mpr ⟨r, ?_, rfl⟩
        refine List.mem_filter.mpr ⟨?_, by simp [hri]⟩
        rw [hA]
        refine List.mem_filter.mpr ⟨hr, ?_⟩
        rw [Bool.not_eq_true', contains_eq_decide, decide_eq_false_iff_not]
        exact h1
      | succ k =>
        exact h1 (strict_chain_mem_closure table i hnd k r hr hchain)
    · intro hnsub
      constructor
      · intro hC1mem
        apply hnsub
        refine cascadeClosure_sound table (fun j => inSubtree table i j) ?_ d1 ?_ r.id hC1mem
        · intro r' hr' p hp hP
          exact inSubtree_child table i hnd hacyc r' hr' p hp hP
        · intro j hj
          rw [hd1] at hj
          obtain ⟨c, hcf, rfl⟩ := List.mem_map.mp hj
          have hct := List.mem_of_mem_filter hcf
          have hcp := List.of_mem_filter hcf
          rw [decide_eq_true_eq] at hcp
          exact inSubtree_child table i hnd hacyc c hct i hcp ⟨0, Nat.zero_le _, rfl⟩
      · intro hC2mem
        apply hnsub
        refine cascadeClosure_sound A (fun j => inSubtree table i j) ?_ d2 ?_ r.id hC2mem
        · intro r' hr' p hp hP
          have hr't : r' ∈ table := by
            rw [hA] at hr'
            exact List.mem_of_mem_filter hr'
          exact inSubtree_child table i hnd hacyc r' hr't p hp hP
        · intro j hj
          rw [hd2] at hj
          obtain ⟨c, hcf, rfl⟩ := List.mem_map.mp hj
          have hci := List.of_mem_filter hcf
          rw [decide_eq_true_eq] at hci
          rw [hci]
          exact ⟨0, Nat.zero_le _, rfl⟩
  have hpart1 : deleteTaskRows table i
      = table.filter (fun r => ¬ inSubtree table i r.id) := by
    rw [hres, hA, List.filter_filter]
    apply List.filter_congr
    intro r hr
    have hk := hkey r hr
    rw [contains_eq_decide, contains_eq_decide, ← decide_not, ← decide_not,
      ← Bool.decide_and, decide_eq_decide]
    constructor
    · rintro ⟨h2, h1⟩
      exact hk.mp ⟨h1, h2⟩
    · intro hn
      exact ⟨(hk.mpr hn).2, (hk.mpr hn).1⟩
  refine ⟨hpart1, ?_⟩
  intro r hrres p hp hpids
  obtain ⟨q, hq, hqid⟩ := List.mem_map.mp hpids
  have hrmem := hrres
  rw [hpart1] at hrmem
  have hrdat := List.mem_filter.mp hrmem
  have hrn : ¬ inSubtree table i r.id := by
    have h2 := hrdat.2
    rwa [decide_eq_true_eq] at h2
  have hqn : ¬ inSubtree table i q.id := by
    intro hsubq
    apply hrn
    refine inSubtree_child table i hnd hacyc r hrdat.1 p hp ?_
    rw [← hqid]
    exact hsubq
  refine ⟨q, ?_, hqid⟩
  rw [hpart1]
  refine List.mem_filter.mpr ⟨hq, ?_⟩
  rw [decide_eq_true_eq]
  exact hqn

/-- Witness for `delete_task_cascades_subtree`: applied to the table
`a ← b ← c` plus the unrelated root `d`, with both hypotheses decided
at this concrete input. -/
theorem delete_task_cascades_subtree_witness :
    deleteTaskRows
        [⟨"a", none, 0⟩, ⟨"b", some "a", 1⟩, ⟨"c", some "b", 2⟩, ⟨"d", none, 3⟩] "a"
      = ([⟨"a", none, 0⟩, ⟨"b", some "a", 1⟩, ⟨"c", some "b", 2⟩,
          ⟨"d", none, 3⟩] : List TaskRow).filter
          (fun r => ¬ inSubtree
            [⟨"a", none, 0⟩, ⟨"b", some "a", 1⟩, ⟨"c", some "b", 2⟩, ⟨"d", none, 3⟩]
            "a" r.id) :=
  (delete_task_cascades_subtree
    [⟨"a", none, 0⟩, ⟨"b", some "a", 1⟩, ⟨"c", some "b", 2⟩, ⟨"d", none, 3⟩] "a"
    (by decide) (by decide)).1

/-- Witness for the conditional part of `month_header_groups`, applied
at the 6-day window starting 2024-01-29. -/
theorem month_header_groups_witness :
    timelineMonths (daysFromCivil 2024 1 29) (daysFromCivil 2024 1 29 + (6 : Int) - 1) 6
      = monthHeaderSpec (daysFromCivil 2024 1 29) 6 :=
  month_header_groups.1 (daysFromCivil 2024 1 29) 6 (by decide)

/-- Witness for `orphan_silently_dropped`: task `b` declares the absent
parent `zzz` and occurs nowhere in the built forest. -/
theorem orphan_silently_dropped_witness :
    occurrences (buildHierarchy [⟨"a", none, 0⟩, ⟨"b", some "zzz", 1⟩]) "b" = 0 :=
  orphan_silently_dropped [⟨"a", none, 0⟩, ⟨"b", some "zzz", 1⟩]
    (by decide) ⟨"b", some "zzz", 1⟩ (by decide) "zzz" rfl (by decide)

/-- C6: timeline geometry is linear in days: `offsetPx(windowStart) = 0`,
`offsetPx(windowStart + k days) = k × dayWidthPx` for every
non-negative integer `k`, and `widthPx(d, d) = dayWidthPx` for every
date `d`. -/
theorem geometry_linear :
    (∀ ws w : Int, offsetPx ws ws w = 0) ∧
    (∀ (ws w : Int) (k : Nat), offsetPx ws (ws + (k : Int)) w = (k : Int) * w) ∧
    (∀ d w : Int, widthPx d d w = w) := by
  refine ⟨fun ws w => ?_, fun ws w k => ?_, fun d w => ?_⟩ <;>
    simp [offsetPx, widthPx]

end Gantt
